import Mathlib

/-!
Verification of the method-merging utilities of `sequelize-external-methods`
(`lib/loadExternalMethods.js`): `overrideWarning`, `loadGetters`, `loadSetters`,
`loadPrototypes`, `loadStatics` and the composer `loadExternalMethods`.

The JavaScript model object is embedded as `ModelState`.  JavaScript objects
used as name-to-callable maps are embedded as insertion-ordered association
lists (`Dict`): assigning an existing key updates it in place, assigning a new
key appends it, matching the own-property order of plain string-keyed JS
objects.  Callables are opaque and identified by a natural number, so that
`SameValue` comparison (needed by `Object.defineProperty`) is decidable.

The `in` operator is modelled chain-sensitively: membership on the plain
objects `_customGetters`/`_customSetters` includes the `Object.prototype`
member names, while `Model` and `Model.prototype` carry the names their
prototype chains contribute.  Static writes are sloppy-mode assignments,
which silently no-op on non-writable own members and on chain-blocked names.

Warnings are collected into a list (in emission order) instead of being
written to `console.warn`; a thrown `TypeError` is recorded by the `threw`
flag of a `LoadOutcome`, together with the state at the moment of the throw
(JavaScript mutates the model in place, so partial mutation survives a throw).
-/

/-- Callables are opaque values compared by identity. -/
abbrev Callable := Nat

/-- A plain string-keyed JavaScript object viewed as a map: an association
list in insertion order. -/
abbrev Dict (α : Type) : Type := List (String × α)

/-- Property lookup (`obj[name]`, own properties only): first matching key. -/
def dictGet {α : Type} : Dict α → String → Option α
  | [], _ => none
  | (k, v) :: rest, name => if k = name then some v else dictGet rest name

/-- Own-property existence test (`Object.prototype.hasOwnProperty`). -/
def dictHas {α : Type} (d : Dict α) (name : String) : Bool :=
  (dictGet d name).isSome

/-- Property assignment (`obj[name] = v`): updates an existing key in place,
appends a new key. -/
def dictSet {α : Type} : Dict α → String → α → Dict α
  | [], name, v => [(name, v)]
  | (k, w) :: rest, name, v =>
      if k = name then (k, v) :: rest else (k, w) :: dictSet rest name v

/-- `Object.keys`: own keys in insertion order. -/
def dictKeys {α : Type} (d : Dict α) : List String :=
  d.map Prod.fst

/-- Assign every entry of `l` into `d` in order: the semantics of the object
spread `{ ...d, ...l }` (later entries win, key positions of `d` are kept). -/
def dictSetAll {α : Type} (d : Dict α) : List (String × α) → Dict α
  | [] => d
  | (k, v) :: rest => dictSetAll (dictSet d k v) rest

/-- The own property names of `Object.prototype`, visible to the `in`
operator on every plain object literal.  `Model.prototype._customGetters` and
`Model.prototype._customSetters` are created by the ORM as plain objects, so
their prototype chain is exactly `Object.prototype`. -/
def objectProtoNames : List String :=
  ["constructor", "hasOwnProperty", "isPrototypeOf", "propertyIsEnumerable",
   "toLocaleString", "toString", "valueOf", "__defineGetter__",
   "__defineSetter__", "__lookupGetter__", "__lookupSetter__", "__proto__"]

/-- The `in` operator on a plain object: an own property, or a member
inherited from `Object.prototype`. -/
def objectHas {α : Type} (d : Dict α) (name : String) : Bool :=
  dictHas d name || objectProtoNames.contains name

/-- A JavaScript property descriptor for a data property. -/
structure PropDesc where
  value : Callable
  writable : Bool
  enumerable : Bool
  configurable : Bool
deriving Repr, DecidableEq

/-- The observable state of a sequelize Model object, restricted to the parts
`loadExternalMethods` reads or writes.

* `optionsGetterMethods` / `optionsSetterMethods` — `Model.options.getterMethods`
  and `Model.options.setterMethods`.
* `customGetters` / `customSetters` — `Model.prototype._customGetters` and
  `Model.prototype._customSetters`, the getter/setter regions consulted by the
  override checks.
* `hasCustomGetters` / `hasCustomSetters` — `Model.prototype._hasCustomGetters`
  and `Model.prototype._hasCustomSetters`, the entry counts of those regions.
* `protoProps` — the own properties of `Model.prototype` (the instance-methods
  region), with full descriptors because `loadPrototypes` uses
  `Object.defineProperty`.
* `protoInherited` — names reachable on the prototype chain above
  `Model.prototype` (consulted by the `in` operator, e.g. `toString`); only
  `in` consults it, since `Object.defineProperty` always defines an own
  property.
* `staticProps` — the own members of `Model` itself (the statics region),
  with full descriptors because sloppy-mode assignment is sensitive to
  writability.
* `staticInherited` — names inherited by `Model` (consulted by `in`), each
  paired with whether a sloppy-mode assignment under that name is silently
  ineffective — a non-writable inherited data property, or an accessor whose
  setter diverts the write away from the own namespace — rather than creating
  an own property. -/
structure ModelState where
  optionsGetterMethods : Dict Callable
  optionsSetterMethods : Dict Callable
  customGetters : Dict Callable
  customSetters : Dict Callable
  hasCustomGetters : Nat
  hasCustomSetters : Nat
  protoProps : Dict PropDesc
  protoInherited : List String
  staticProps : Dict PropDesc
  staticInherited : Dict Bool
deriving Repr, DecidableEq

/-- A ModelState with nothing defined in any region. -/
def emptyModel : ModelState :=
  ⟨[], [], [], [], 0, 0, [], [], [], []⟩

/-- Result of a load operation: the model state reached, the warnings emitted
in order, and whether a TypeError was thrown (the state is the state at the
moment of the throw, since mutation is in place). -/
structure LoadOutcome where
  state : ModelState
  warnings : List String
  threw : Bool
deriving Repr, DecidableEq

/-- `overrideWarning` from `lib/loadExternalMethods.js`: the warning message
for an overridden method. -/
def overrideWarning (location methodName : String) : String :=
  "Existing [" ++ location ++ "] method [" ++ methodName ++
    "] overridden by loadExternalMethods"

/-- Modelled from the spec: `Model.refreshAttributes()` is part of the host
ORM (sequelize), not of this repository.  Per the data model of the spec the
getters/setters regions are "simply ... mappings owned by the Target, with the
getters/setters regions additionally tracking a count of registered entries":
refreshing rebuilds `_customGetters`/`_customSetters` from
`options.getterMethods`/`options.setterMethods` and sets each count to the
number of entries of its region. -/
def refreshAttributes (m : ModelState) : ModelState :=
  { m with
    customGetters := m.optionsGetterMethods
    customSetters := m.optionsSetterMethods
    hasCustomGetters := m.optionsGetterMethods.length
    hasCustomSetters := m.optionsSetterMethods.length }

/-- The warning pass shared by `loadGetters` and `loadSetters`: for each name
in order, `if (present) { warn && console.warn(overrideWarning(loc, name)) }`. -/
def warnExisting (loc : String) (present : String → Bool) (warn : Bool) :
    List String → List String
  | [] => []
  | name :: rest =>
      (if present name then (if warn then [overrideWarning loc name] else [])
       else []) ++ warnExisting loc present warn rest

/-- `loadGetters(Model, getterMethods, warn)`: warn for each key of
`getterMethods` already `in Model.prototype._customGetters` — the `in`
operator on that plain object also sees `Object.prototype` members — then
`Model.options.getterMethods = { ...Model.options.getterMethods,
...getterMethods }`, then `Model.refreshAttributes()`. -/
def loadGetters (m : ModelState) (getterMethods : Dict Callable) (warn : Bool) :
    ModelState × List String :=
  let warnings := warnExisting "getterMethods"
    (fun n => objectHas m.customGetters n) warn (dictKeys getterMethods)
  let merged := { m with
    optionsGetterMethods := dictSetAll m.optionsGetterMethods getterMethods }
  (refreshAttributes merged, warnings)

/-- `loadSetters(Model, setterMethods, warn)`: identical to `loadGetters`
applied to the setters region, with location tag `setterMethods`. -/
def loadSetters (m : ModelState) (setterMethods : Dict Callable) (warn : Bool) :
    ModelState × List String :=
  let warnings := warnExisting "setterMethods"
    (fun n => objectHas m.customSetters n) warn (dictKeys setterMethods)
  let merged := { m with
    optionsSetterMethods := dictSetAll m.optionsSetterMethods setterMethods }
  (refreshAttributes merged, warnings)

/-- The `in` operator on `Model.prototype`: own property or inherited name. -/
def protoHas (m : ModelState) (name : String) : Bool :=
  dictHas m.protoProps name || m.protoInherited.contains name

/-- The `in` operator on `Model` itself: own member or inherited name. -/
def staticHas (m : ModelState) (name : String) : Bool :=
  dictHas m.staticProps name || dictHas m.staticInherited name

/-- Whether the prototype chain blocks `obj[name] = v` from creating an own
property: true when the inherited member under that name is a non-writable
data property or an accessor (whose setter diverts the write). -/
def inheritedBlocks (inherited : Dict Bool) (name : String) : Bool :=
  (dictGet inherited name).getD false

/-- Sloppy-mode property assignment `obj[name] = v` (the source module has no
use-strict directive): an own writable data property is updated in place; an
own non-writable data property silently absorbs the write; otherwise the
chain is consulted — a blocking inherited member makes the assignment a
silent no-op, and else an own writable, enumerable, configurable data
property is created.  Own accessor properties are not modelled. -/
def jsAssign (d : Dict PropDesc) (inherited : Dict Bool) (name : String)
    (v : Callable) : Dict PropDesc :=
  match dictGet d name with
  | some cur =>
      if cur.writable then dictSet d name { cur with value := v } else d
  | none =>
      if inheritedBlocks inherited name then d
      else dictSet d name ⟨v, true, true, true⟩

/-- Assign every entry of `l` in order via sloppy-mode assignment. -/
def jsAssignAll (d : Dict PropDesc) (inherited : Dict Bool) :
    List (String × Callable) → Dict PropDesc
  | [] => d
  | (k, v) :: rest => jsAssignAll (jsAssign d inherited k v) inherited rest

/-- `Object.defineProperty(obj, name, { value: v })` on string-keyed data
properties of an extensible object.  A descriptor listing only `value` leaves
absent attributes at `false` when the property is created, and keeps the
current attributes when redefining.  Redefining a non-configurable,
non-writable data property with a different value throws a TypeError
(`none`); with the same value it is a no-op. -/
def definePropertyValue (d : Dict PropDesc) (name : String) (v : Callable) :
    Option (Dict PropDesc) :=
  match dictGet d name with
  | none => some (dictSet d name ⟨v, false, false, false⟩)
  | some cur =>
      if cur.configurable || cur.writable then
        some (dictSet d name { cur with value := v })
      else if v = cur.value then some d
      else none

/-- The body of the `loadPrototypes` loop over `Object.entries`: per entry,
warn if the name is `in Model.prototype`, then
`Object.defineProperty(Model.prototype, name, { value: method })` — which may
throw, aborting the loop with the model partially mutated. -/
def loadPrototypesLoop (m : ModelState) (warn : Bool) :
    List (String × Callable) → LoadOutcome
  | [] => ⟨m, [], false⟩
  | (prototypeName, method) :: rest =>
      let ws := if protoHas m prototypeName then
          (if warn then [overrideWarning "prototype" prototypeName] else [])
        else []
      match definePropertyValue m.protoProps prototypeName method with
      | some d =>
          let r := loadPrototypesLoop { m with protoProps := d } warn rest
          ⟨r.state, ws ++ r.warnings, r.threw⟩
      | none => ⟨m, ws, true⟩

/-- `loadPrototypes(Model, prototypeMethods, warn)`. -/
def loadPrototypes (m : ModelState) (prototypeMethods : Dict Callable)
    (warn : Bool) : LoadOutcome :=
  loadPrototypesLoop m warn prototypeMethods

/-- The body of the `loadStatics` loop over `Object.entries`: per entry, warn
if the name is `in Model`, then the sloppy-mode assignment
`Model[staticName] = method` (which silently fails on non-writable or
chain-blocked members). -/
def loadStaticsLoop (m : ModelState) (warn : Bool) :
    List (String × Callable) → ModelState × List String
  | [] => (m, [])
  | (staticName, method) :: rest =>
      let ws := if staticHas m staticName then
          (if warn then [overrideWarning "static" staticName] else [])
        else []
      let r := loadStaticsLoop
        { m with staticProps :=
            jsAssign m.staticProps m.staticInherited staticName method }
        warn rest
      (r.1, ws ++ r.2)

/-- `loadStatics(Model, staticMethods, warn)`. -/
def loadStatics (m : ModelState) (staticMethods : Dict Callable)
    (warn : Bool) : ModelState × List String :=
  loadStaticsLoop m warn staticMethods

/-- The `methods` argument of `loadExternalMethods`: up to four named
mappings; an absent mapping defaults to `{}` on destructuring. -/
structure MethodBundle where
  staticMethods : Option (Dict Callable)
  getterMethods : Option (Dict Callable)
  setterMethods : Option (Dict Callable)
  prototypeMethods : Option (Dict Callable)
deriving Repr, DecidableEq

/-- The entirely absent bundle `{}`. -/
def emptyBundle : MethodBundle :=
  ⟨none, none, none, none⟩

/-- `loadExternalMethods(Model, methods, warn)`: destructure the bundle with
`{}` defaults, then `loadGetters`, `loadSetters`, `loadPrototypes`,
`loadStatics` in that order against the same Model, passing `warn` through.
A TypeError thrown by `loadPrototypes` propagates, so `loadStatics` does not
run in that case. -/
def loadExternalMethods (m : ModelState) (methods : MethodBundle)
    (warn : Bool) : LoadOutcome :=
  let staticMethods := methods.staticMethods.getD []
  let getterMethods := methods.getterMethods.getD []
  let setterMethods := methods.setterMethods.getD []
  let prototypeMethods := methods.prototypeMethods.getD []
  let g := loadGetters m getterMethods warn
  let s := loadSetters g.1 setterMethods warn
  let p := loadPrototypes s.1 prototypeMethods warn
  if p.threw then ⟨p.state, g.2 ++ s.2 ++ p.warnings, true⟩
  else
    let st := loadStatics p.state staticMethods warn
    ⟨st.1, g.2 ++ s.2 ++ p.warnings ++ st.2, false⟩

/-- A well-formed Model: the getter/setter regions and their counts agree
with the option mappings they are rebuilt from (established by
`sequelize.define`, which runs `refreshAttributes`), and, as for every
JavaScript object, own keys are unique. -/
def Synced (m : ModelState) : Prop :=
  m.customGetters = m.optionsGetterMethods ∧
  m.customSetters = m.optionsSetterMethods ∧
  m.hasCustomGetters = m.optionsGetterMethods.length ∧
  m.hasCustomSetters = m.optionsSetterMethods.length

instance (m : ModelState) : Decidable (Synced m) := by
  unfold Synced; infer_instance

/-- Written from the spec (section 4.6 Composer), independently of the code:
"unpack the four named mappings of the bundle (absent ones default to empty), then
invoke, strictly in this order: getters merge, setters merge, instance-methods
merge, statics merge — each against the same Target, propagating the warn flag
unchanged", with "no rollback: a failure partway through ... leaves the Target
partially mutated", so a TypeError raised by the instance-methods merge skips
the statics merge. -/
def composerSpec (target : ModelState) (bundle : MethodBundle) (warn : Bool) :
    LoadOutcome :=
  let getterPart := bundle.getterMethods.getD []
  let setterPart := bundle.setterMethods.getD []
  let protoPart := bundle.prototypeMethods.getD []
  let staticPart := bundle.staticMethods.getD []
  let afterGetters := loadGetters target getterPart warn
  let afterSetters := loadSetters afterGetters.1 setterPart warn
  let afterProtos := loadPrototypes afterSetters.1 protoPart warn
  if afterProtos.threw then
    ⟨afterProtos.state, afterGetters.2 ++ afterSetters.2 ++ afterProtos.warnings,
      true⟩
  else
    let afterStatics := loadStatics afterProtos.state staticPart warn
    ⟨afterStatics.1,
      afterGetters.2 ++ afterSetters.2 ++ afterProtos.warnings ++ afterStatics.2,
      false⟩

/-! ### Lemmas about `Dict` operations -/

theorem dictGet_dictSet_self {α : Type} (d : Dict α) (k : String) (v : α) :
    dictGet (dictSet d k v) k = some v := by
  induction d with
  | nil => simp [dictSet, dictGet]
  | cons hd tl ih =>
      obtain ⟨k', w⟩ := hd
      by_cases h : k' = k <;> simp [dictSet, dictGet, h, ih]

theorem dictGet_dictSet_of_ne {α : Type} (d : Dict α) (k k' : String) (v : α)
    (h : k' ≠ k) : dictGet (dictSet d k v) k' = dictGet d k' := by
  induction d with
  | nil => simp [dictSet, dictGet, Ne.symm h]
  | cons hd tl ih =>
      obtain ⟨k0, w⟩ := hd
      by_cases h0 : k0 = k
      · subst h0
        simp [dictSet, dictGet, Ne.symm h]
      · simp [dictSet, dictGet, h0, ih]

theorem dictHas_dictSet {α : Type} (d : Dict α) (k k' : String) (v : α) :
    dictHas (dictSet d k v) k' = if k' = k then true else dictHas d k' := by
  by_cases h : k' = k
  · subst h; simp [dictHas, dictGet_dictSet_self]
  · simp [dictHas, dictGet_dictSet_of_ne d k k' v h, h]

theorem dictGet_eq_none_of_not_mem {α : Type} (d : Dict α) (k : String)
    (h : k ∉ dictKeys d) : dictGet d k = none := by
  induction d with
  | nil => simp [dictGet]
  | cons hd tl ih =>
      obtain ⟨k0, w⟩ := hd
      simp only [dictKeys, List.map_cons, List.mem_cons] at h
      push_neg at h
      have h2 : k ∉ dictKeys tl := by simpa [dictKeys] using h.2
      simp [dictGet, Ne.symm h.1, ih h2]

theorem length_dictSet {α : Type} (d : Dict α) (k : String) (v : α) :
    (dictSet d k v).length =
      if dictHas d k then d.length else d.length + 1 := by
  induction d with
  | nil => simp [dictSet, dictHas, dictGet]
  | cons hd tl ih =>
      obtain ⟨k0, w⟩ := hd
      by_cases h : k0 = k
      · simp [dictSet, dictHas, dictGet, h]
      · by_cases h2 : (dictGet tl k).isSome = true <;>
          simp [dictSet, dictHas, dictGet, h, ih, h2]

theorem dictGet_dictSetAll {α : Type} (l : List (String × α))
    (hnd : (dictKeys l).Nodup) (d : Dict α) (n : String) :
    dictGet (dictSetAll d l) n =
      if dictHas l n then dictGet l n else dictGet d n := by
  induction l generalizing d with
  | nil => simp [dictSetAll, dictHas, dictGet]
  | cons hd rest ih =>
      obtain ⟨k, v⟩ := hd
      simp only [dictKeys, List.map_cons, List.nodup_cons] at hnd
      have ihrest := ih (by simpa [dictKeys] using hnd.2)
      by_cases h : n = k
      · subst h
        have hrest : dictGet rest n = none :=
          dictGet_eq_none_of_not_mem rest n (by simpa [dictKeys] using hnd.1)
        simp [dictSetAll, ihrest, dictHas, hrest, dictGet,
          dictGet_dictSet_self]
      · simp [dictSetAll, ihrest, dictHas, dictGet, Ne.symm h,
          dictGet_dictSet_of_ne d k n v h]

theorem dictHas_dictSetAll {α : Type} (l : List (String × α)) (d : Dict α)
    (n : String) :
    dictHas (dictSetAll d l) n = (dictHas d n || dictHas l n) := by
  induction l generalizing d with
  | nil => simp [dictSetAll, dictHas, dictGet]
  | cons hd rest ih =>
      obtain ⟨k, v⟩ := hd
      rw [dictSetAll, ih, dictHas_dictSet]
      by_cases h : n = k
      · subst h
        simp [dictHas, dictGet]
      · simp [dictHas, dictGet, h, Ne.symm h, Bool.or_assoc]

theorem length_dictSetAll {α : Type} (l : List (String × α))
    (hnd : (dictKeys l).Nodup) (d : Dict α) :
    (dictSetAll d l).length =
      d.length + ((dictKeys l).filter (fun k => !(dictHas d k))).length := by
  induction l generalizing d with
  | nil => simp [dictSetAll, dictKeys]
  | cons hd rest ih =>
      obtain ⟨k, v⟩ := hd
      simp only [dictKeys, List.map_cons, List.nodup_cons] at hnd
      have hfilter : (dictKeys rest).filter
            (fun k' => !(dictHas (dictSet d k v) k')) =
          (dictKeys rest).filter (fun k' => !(dictHas d k')) := by
        refine List.filter_congr ?_
        intro x hx
        have hxk : x ≠ k := by
          intro heq
          exact hnd.1 (heq ▸ hx)
        simp [dictHas_dictSet, hxk]
      have hih := ih (by simpa [dictKeys] using hnd.2) (dictSet d k v)
      rw [dictSetAll, hih, hfilter, length_dictSet]
      have hcons : dictKeys ((k, v) :: rest) = k :: dictKeys rest := rfl
      rw [hcons, List.filter_cons]
      by_cases h : dictHas d k
      · simp [h]
      · simp only [h, if_false, Bool.not_false, if_true, List.length_cons,
          Bool.false_eq_true]
        omega

/-! ### Lemmas about the warning pass and `Object.defineProperty` -/

theorem warnExisting_of_not_warn (loc : String) (present : String → Bool)
    (l : List String) : warnExisting loc present false l = [] := by
  induction l with
  | nil => rfl
  | cons hd tl ih => simp [warnExisting, ih]

theorem warnExisting_of_warn (loc : String) (present : String → Bool)
    (l : List String) :
    warnExisting loc present true l =
      (l.filter present).map (overrideWarning loc) := by
  induction l with
  | nil => rfl
  | cons hd tl ih =>
      by_cases h : present hd <;> simp [warnExisting, List.filter_cons, h, ih]

theorem definePropertyValue_get_of_ne (d : Dict PropDesc) (k : String)
    (v : Callable) (d' : Dict PropDesc)
    (h : definePropertyValue d k v = some d') (n : String) (hn : n ≠ k) :
    dictGet d' n = dictGet d n := by
  cases hcur : dictGet d k with
  | none =>
      simp only [definePropertyValue, hcur] at h
      cases h
      exact dictGet_dictSet_of_ne d k n _ hn
  | some cur =>
      simp only [definePropertyValue, hcur] at h
      by_cases hc : (cur.configurable || cur.writable) = true
      · rw [if_pos hc] at h
        cases h
        exact dictGet_dictSet_of_ne d k n _ hn
      · rw [if_neg hc] at h
        by_cases hv : v = cur.value
        · rw [if_pos hv] at h
          cases h
          rfl
        · rw [if_neg hv] at h
          cases h

theorem definePropertyValue_value (d : Dict PropDesc) (k : String)
    (v : Callable) (d' : Dict PropDesc)
    (h : definePropertyValue d k v = some d') :
    (dictGet d' k).map PropDesc.value = some v := by
  cases hcur : dictGet d k with
  | none =>
      simp only [definePropertyValue, hcur] at h
      cases h
      simp [dictGet_dictSet_self]
  | some cur =>
      simp only [definePropertyValue, hcur] at h
      by_cases hc : (cur.configurable || cur.writable) = true
      · rw [if_pos hc] at h
        cases h
        simp [dictGet_dictSet_self]
      · rw [if_neg hc] at h
        by_cases hv : v = cur.value
        · rw [if_pos hv] at h
          cases h
          simp [hcur, hv]
        · rw [if_neg hv] at h
          cases h

theorem definePropertyValue_has (d : Dict PropDesc) (k : String)
    (v : Callable) (d' : Dict PropDesc)
    (h : definePropertyValue d k v = some d') (n : String)
    (hn : dictHas d n = true) : dictHas d' n = true := by
  by_cases hk : n = k
  · subst hk
    have := definePropertyValue_value d n v d' h
    unfold dictHas
    cases hg : dictGet d' n
    · rw [hg] at this
      cases this
    · rfl
  · unfold dictHas
    rw [definePropertyValue_get_of_ne d k v d' h n hk]
    exact hn

theorem definePropertyValue_of_fresh (d : Dict PropDesc) (k : String)
    (v : Callable) (hfresh : dictHas d k = false) :
    definePropertyValue d k v = some (dictSet d k ⟨v, false, false, false⟩) := by
  unfold definePropertyValue
  cases hcur : dictGet d k with
  | none => rfl
  | some cur => rw [dictHas, hcur] at hfresh; cases hfresh

/-! ### Lemmas about the `loadPrototypes` loop -/

theorem loadPrototypesLoop_warn_independent (l : List (String × Callable))
    (m : ModelState) :
    (loadPrototypesLoop m false l).state = (loadPrototypesLoop m true l).state ∧
    (loadPrototypesLoop m false l).threw = (loadPrototypesLoop m true l).threw ∧
    (loadPrototypesLoop m false l).warnings = [] := by
  induction l generalizing m with
  | nil => exact ⟨rfl, rfl, rfl⟩
  | cons hd rest ih =>
      obtain ⟨k, v⟩ := hd
      cases hdef : definePropertyValue m.protoProps k v with
      | some d =>
          have := ih { m with protoProps := d }
          simp [loadPrototypesLoop, hdef, this.1, this.2.1, this.2.2]
      | none => simp [loadPrototypesLoop, hdef]

theorem loadPrototypesLoop_other_fields (l : List (String × Callable))
    (m : ModelState) (w : Bool) :
    (loadPrototypesLoop m w l).state.optionsGetterMethods =
        m.optionsGetterMethods ∧
    (loadPrototypesLoop m w l).state.optionsSetterMethods =
        m.optionsSetterMethods ∧
    (loadPrototypesLoop m w l).state.customGetters = m.customGetters ∧
    (loadPrototypesLoop m w l).state.customSetters = m.customSetters ∧
    (loadPrototypesLoop m w l).state.hasCustomGetters = m.hasCustomGetters ∧
    (loadPrototypesLoop m w l).state.hasCustomSetters = m.hasCustomSetters ∧
    (loadPrototypesLoop m w l).state.protoInherited = m.protoInherited ∧
    (loadPrototypesLoop m w l).state.staticProps = m.staticProps ∧
    (loadPrototypesLoop m w l).state.staticInherited = m.staticInherited := by
  induction l generalizing m with
  | nil => exact ⟨rfl, rfl, rfl, rfl, rfl, rfl, rfl, rfl, rfl⟩
  | cons hd rest ih =>
      obtain ⟨k, v⟩ := hd
      cases hdef : definePropertyValue m.protoProps k v with
      | some d =>
          have := ih { m with protoProps := d }
          simp only [loadPrototypesLoop, hdef] at *
          exact this
      | none => simp [loadPrototypesLoop, hdef]

theorem loadPrototypesLoop_get_of_not_mem (l : List (String × Callable))
    (m : ModelState) (w : Bool) (n : String) (h : n ∉ dictKeys l) :
    dictGet (loadPrototypesLoop m w l).state.protoProps n =
      dictGet m.protoProps n := by
  induction l generalizing m with
  | nil => rfl
  | cons hd rest ih =>
      obtain ⟨k, v⟩ := hd
      simp only [dictKeys, List.map_cons, List.mem_cons] at h
      push_neg at h
      cases hdef : definePropertyValue m.protoProps k v with
      | some d =>
          have hrest := ih { m with protoProps := d } h.2
          simp only [loadPrototypesLoop, hdef]
          rw [hrest]
          exact definePropertyValue_get_of_ne m.protoProps k v d hdef n h.1
      | none => simp [loadPrototypesLoop, hdef]

theorem loadPrototypesLoop_has_preserved (l : List (String × Callable))
    (m : ModelState) (w : Bool) (n : String)
    (h : dictHas m.protoProps n = true) :
    dictHas (loadPrototypesLoop m w l).state.protoProps n = true := by
  induction l generalizing m with
  | nil => exact h
  | cons hd rest ih =>
      obtain ⟨k, v⟩ := hd
      cases hdef : definePropertyValue m.protoProps k v with
      | some d =>
          have hd' : dictHas d n = true :=
            definePropertyValue_has m.protoProps k v d hdef n h
          have := ih { m with protoProps := d } hd'
          simpa [loadPrototypesLoop, hdef] using this
      | none => simpa [loadPrototypesLoop, hdef] using h

theorem loadPrototypesLoop_fresh (l : List (String × Callable))
    (m : ModelState) (hnd : (dictKeys l).Nodup)
    (hfresh : ∀ k ∈ dictKeys l, dictHas m.protoProps k = false) :
    (loadPrototypesLoop m true l).threw = false ∧
    (loadPrototypesLoop m true l).warnings =
      ((dictKeys l).filter (fun k => protoHas m k)).map
        (overrideWarning "prototype") ∧
    ∀ n v, dictGet l n = some v →
      dictGet (loadPrototypesLoop m true l).state.protoProps n =
        some ⟨v, false, false, false⟩ := by
  induction l generalizing m with
  | nil =>
      refine ⟨rfl, rfl, ?_⟩
      intro n v h
      cases h
  | cons hd rest ih =>
      obtain ⟨k, v⟩ := hd
      simp only [dictKeys, List.map_cons, List.nodup_cons] at hnd
      have hkown : dictHas m.protoProps k = false :=
        hfresh k (by simp [dictKeys])
      have hdef := definePropertyValue_of_fresh m.protoProps k v hkown
      set m' : ModelState :=
        { m with protoProps := dictSet m.protoProps k ⟨v, false, false, false⟩ }
      have hfresh' : ∀ k' ∈ dictKeys rest, dictHas m'.protoProps k' = false := by
        intro k' hk'
        have hne : k' ≠ k := by
          intro heq
          exact hnd.1 (heq ▸ hk')
        have := hfresh k' (by simp [dictKeys]; right; simpa [dictKeys] using hk')
        simp only [m']
        rw [dictHas_dictSet]
        simp only [hne, if_false]
        simpa using this
      have hsame : (dictKeys rest).filter (fun k' => protoHas m' k') =
          (dictKeys rest).filter (fun k' => protoHas m k') := by
        refine List.filter_congr ?_
        intro x hx
        have hxk : x ≠ k := by
          intro heq
          exact hnd.1 (heq ▸ hx)
        unfold protoHas
        simp only [m']
        rw [dictHas_dictSet]
        simp [hxk]
      have hrest := ih m' (by simpa [dictKeys] using hnd.2) hfresh'
      refine ⟨?_, ?_, ?_⟩
      · simp [loadPrototypesLoop, hdef, hrest.1]
      · have hcons : dictKeys ((k, v) :: rest) = k :: dictKeys rest := rfl
        rw [hcons, List.filter_cons]
        simp only [loadPrototypesLoop, hdef]
        rw [hrest.2.1, hsame]
        by_cases h : protoHas m k <;> simp [h]
      · intro n w' hget
        by_cases hn : n = k
        · subst hn
          rw [dictGet] at hget
          simp only [if_pos rfl] at hget
          cases hget
          have hnot : n ∉ dictKeys rest := hnd.1
          simp only [loadPrototypesLoop, hdef]
          rw [loadPrototypesLoop_get_of_not_mem rest m' true n hnot]
          simp only [m']
          exact dictGet_dictSet_self m.protoProps n _
        · have hget' : dictGet rest n = some w' := by
            rw [dictGet] at hget
            simpa [Ne.symm hn] using hget
          have := hrest.2.2 n w' hget'
          simpa [loadPrototypesLoop, hdef] using this

/-! ### Lemmas about sloppy-mode assignment and the `loadStatics` loop -/

theorem dictGet_eq_none_of_not_has {α : Type} (d : Dict α) (n : String)
    (h : dictHas d n = false) : dictGet d n = none := by
  cases hg : dictGet d n with
  | none => rfl
  | some v =>
      rw [dictHas, hg] at h
      cases h

theorem jsAssign_get_of_ne (d : Dict PropDesc) (inh : Dict Bool) (k : String)
    (v : Callable) (n : String) (hn : n ≠ k) :
    dictGet (jsAssign d inh k v) n = dictGet d n := by
  cases hcur : dictGet d k with
  | some cur =>
      simp only [jsAssign, hcur]
      by_cases hw : cur.writable = true
      · rw [if_pos hw]
        exact dictGet_dictSet_of_ne d k n _ hn
      · rw [if_neg hw]
  | none =>
      simp only [jsAssign, hcur]
      by_cases hb : inheritedBlocks inh k = true
      · rw [if_pos hb]
      · rw [if_neg hb]
        exact dictGet_dictSet_of_ne d k n _ hn

theorem jsAssign_has_preserved (d : Dict PropDesc) (inh : Dict Bool)
    (k : String) (v : Callable) (n : String) (h : dictHas d n = true) :
    dictHas (jsAssign d inh k v) n = true := by
  by_cases hn : n = k
  · subst hn
    cases hcur : dictGet d n with
    | none =>
        rw [dictHas, hcur] at h
        cases h
    | some cur =>
        simp only [jsAssign, hcur]
        by_cases hw : cur.writable = true
        · rw [if_pos hw, dictHas, dictGet_dictSet_self]
          rfl
        · rw [if_neg hw]
          exact h
  · rw [dictHas, jsAssign_get_of_ne d inh k v n hn]
    exact h

theorem dictGet_jsAssignAll (l : List (String × Callable))
    (hnd : (dictKeys l).Nodup) (d : Dict PropDesc) (inh : Dict Bool)
    (n : String) :
    dictGet (jsAssignAll d inh l) n =
      (match dictGet l n with
      | none => dictGet d n
      | some v =>
          match dictGet d n with
          | some cur =>
              if cur.writable then some { cur with value := v } else some cur
          | none =>
              if inheritedBlocks inh n then none
              else some ⟨v, true, true, true⟩) := by
  induction l generalizing d with
  | nil => simp [jsAssignAll, dictGet]
  | cons hd rest ih =>
      obtain ⟨k, v⟩ := hd
      simp only [dictKeys, List.map_cons, List.nodup_cons] at hnd
      have ihrest := ih (by simpa [dictKeys] using hnd.2)
      by_cases hn : n = k
      · subst hn
        have hrestnone : dictGet rest n = none :=
          dictGet_eq_none_of_not_mem rest n (by simpa [dictKeys] using hnd.1)
        have hl : dictGet ((n, v) :: rest) n = some v := by
          rw [dictGet, if_pos rfl]
        simp only [jsAssignAll, ihrest (jsAssign d inh n v), hrestnone, hl]
        cases hcur : dictGet d n with
        | some cur =>
            by_cases hw : cur.writable = true
            · simp [jsAssign, hcur, hw, dictGet_dictSet_self]
            · simp [jsAssign, hcur, hw]
        | none =>
            by_cases hb : inheritedBlocks inh n = true
            · simp [jsAssign, hcur, hb]
            · simp [jsAssign, hcur, hb, dictGet_dictSet_self]
  
      · have hl : dictGet ((k, v) :: rest) n = dictGet rest n := by
          rw [dictGet, if_neg (fun heq => hn heq.symm)]
        simp only [jsAssignAll, ihrest (jsAssign d inh k v), hl,
          jsAssign_get_of_ne d inh k v n hn]

theorem jsAssignAll_get_of_not_has (l : List (String × Callable))
    (d : Dict PropDesc) (inh : Dict Bool) (n : String)
    (h : dictHas l n = false) :
    dictGet (jsAssignAll d inh l) n = dictGet d n := by
  induction l generalizing d with
  | nil => rfl
  | cons hd rest ih =>
      obtain ⟨k, v⟩ := hd
      have hk : ¬(k = n) := by
        intro heq
        rw [dictHas, dictGet, if_pos heq] at h
        cases h
      have hrest : dictHas rest n = false := by
        rw [dictHas, dictGet, if_neg hk] at h
        exact h
      rw [jsAssignAll, ih (jsAssign d inh k v) hrest,
        jsAssign_get_of_ne d inh k v n (fun heq => hk heq.symm)]

theorem jsAssignAll_has_preserved (l : List (String × Callable))
    (d : Dict PropDesc) (inh : Dict Bool) (n : String)
    (h : dictHas d n = true) :
    dictHas (jsAssignAll d inh l) n = true := by
  induction l generalizing d with
  | nil => exact h
  | cons hd rest ih =>
      obtain ⟨k, v⟩ := hd
      rw [jsAssignAll]
      exact ih (jsAssign d inh k v) (jsAssign_has_preserved d inh k v n h)

theorem loadStaticsLoop_state (l : List (String × Callable))
    (m : ModelState) (w : Bool) :
    (loadStaticsLoop m w l).1 =
      { m with staticProps :=
          jsAssignAll m.staticProps m.staticInherited l } := by
  induction l generalizing m with
  | nil => rfl
  | cons hd rest ih =>
      obtain ⟨k, v⟩ := hd
      simp only [loadStaticsLoop]
      rw [ih]
      rfl

theorem loadStaticsLoop_of_not_warn (l : List (String × Callable))
    (m : ModelState) : (loadStaticsLoop m false l).2 = [] := by
  induction l generalizing m with
  | nil => rfl
  | cons hd rest ih =>
      obtain ⟨k, v⟩ := hd
      simp [loadStaticsLoop, ih]

theorem loadStaticsLoop_of_warn (l : List (String × Callable))
    (m : ModelState) (hnd : (dictKeys l).Nodup) :
    (loadStaticsLoop m true l).2 =
      ((dictKeys l).filter (fun k => staticHas m k)).map
        (overrideWarning "static") := by
  induction l generalizing m with
  | nil => rfl
  | cons hd rest ih =>
      obtain ⟨k, v⟩ := hd
      simp only [dictKeys, List.map_cons, List.nodup_cons] at hnd
      set m' : ModelState :=
        { m with staticProps :=
            jsAssign m.staticProps m.staticInherited k v }
      have hsame : (dictKeys rest).filter (fun k' => staticHas m' k') =
          (dictKeys rest).filter (fun k' => staticHas m k') := by
        refine List.filter_congr ?_
        intro x hx
        have hxk : x ≠ k := by
          intro heq
          exact hnd.1 (heq ▸ hx)
        unfold staticHas
        simp only [m']
        have hjg : dictHas (jsAssign m.staticProps m.staticInherited k v) x =
            dictHas m.staticProps x := by
          unfold dictHas
          rw [jsAssign_get_of_ne m.staticProps m.staticInherited k v x hxk]
        rw [hjg]
      have hrest := ih m' (by simpa [dictKeys] using hnd.2)
      simp only [loadStaticsLoop, hrest, hsame]
      have hcons : dictKeys ((k, v) :: rest) = k :: dictKeys rest := rfl
      rw [hcons, List.filter_cons]
      by_cases h : staticHas m k <;> simp [h]

theorem dictHas_of_mem_keys {α : Type} (d : Dict α) (n : String)
    (h : n ∈ dictKeys d) : dictHas d n = true := by
  induction d with
  | nil => cases h
  | cons hd tl ih =>
      obtain ⟨k, v⟩ := hd
      by_cases hk : k = n
      · simp [dictHas, dictGet, hk]
      · have : n ∈ dictKeys tl := by
          simpa [dictKeys, Ne.symm hk] using h
        have := ih this
        simp only [dictHas, dictGet, hk, if_false]
        exact this

theorem dictGet_dictSetAll_of_not_has {α : Type} (l : List (String × α))
    (d : Dict α) (n : String) (h : dictHas l n = false) :
    dictGet (dictSetAll d l) n = dictGet d n := by
  induction l generalizing d with
  | nil => rfl
  | cons hd rest ih =>
      obtain ⟨k, v⟩ := hd
      have hk : ¬(k = n) := by
        intro heq
        rw [dictHas, dictGet, if_pos heq] at h
        cases h
      have hrest : dictHas rest n = false := by
        rw [dictHas, dictGet, if_neg hk] at h
        exact h
      rw [dictSetAll, ih (dictSet d k v) hrest,
        dictGet_dictSet_of_ne d k n v (fun heq => hk heq.symm)]

/-! ### Claim theorems -/

/-- C4: for every Target, MethodBundle and warn flag, `loadExternalMethods`
unpacks the four named mappings of the bundle (substituting an empty mapping for
each absent one) and invokes the four mergers against that same Target
strictly in the order getters, setters, instance methods, statics, passing
the warn flag unchanged to each: it coincides with the composer transcribed
from the spec. -/
theorem C4_composer_order (m : ModelState) (b : MethodBundle) (warn : Bool) :
    loadExternalMethods m b warn = composerSpec m b warn := rfl

/-- C10: `loadPrototypes` detects conflicts with the `in` operator on
`Model.prototype`, which consults the entire prototype chain: a name that is
inherited but never an own entry of the instance-methods region still
triggers an override warning when warn=true (and the method is still
installed). -/
theorem C10_prototype_chain_conflict (m : ModelState) (n : String)
    (f : Callable) (hown : dictHas m.protoProps n = false)
    (hinh : m.protoInherited.contains n = true) :
    (loadPrototypes m [(n, f)] true).warnings =
      [overrideWarning "prototype" n] ∧
    (loadPrototypes m [(n, f)] true).threw = false ∧
    dictGet (loadPrototypes m [(n, f)] true).state.protoProps n =
      some ⟨f, false, false, false⟩ := by
  have hdef := definePropertyValue_of_fresh m.protoProps n f hown
  have hph : protoHas m n = true := by
    unfold protoHas
    rw [hinh]
    simp
  refine ⟨?_, ?_, ?_⟩ <;>
    simp [loadPrototypes, loadPrototypesLoop, hdef, hph, dictGet_dictSet_self]

/-- Witness for C10 at a concrete input: `toString` is inherited by every
prototype object, so merging a method under that name warns even though the
region never held it. -/
theorem C10_witness :
    dictHas ({ emptyModel with
        protoInherited := ["toString"] } : ModelState).protoProps
        "toString" = false ∧
    ({ emptyModel with
        protoInherited := ["toString"] } : ModelState).protoInherited.contains
        "toString" = true ∧
    (loadPrototypes { emptyModel with protoInherited := ["toString"] }
        [("toString", 7)] true).warnings =
      [overrideWarning "prototype" "toString"] := by
  refine ⟨by decide, by decide, ?_⟩
  exact (C10_prototype_chain_conflict
    { emptyModel with protoInherited := ["toString"] }
    "toString" 7 (by decide) (by decide)).1

/-- C7 is false as stated: the write is a sloppy-mode assignment, which
silently fails on a non-writable own member such as the `prototype` member
every class-valued Target has — the warning is still emitted but the callable
is not written. -/
theorem C7_counterexample :
    (loadStatics { emptyModel with
        staticProps := [("prototype", ⟨0, false, false, false⟩)] }
        [("prototype", 9)] true).2 =
      ["Existing [static] method [prototype] overridden by loadExternalMethods"] ∧
    (dictGet (loadStatics { emptyModel with
        staticProps := [("prototype", ⟨0, false, false, false⟩)] }
        [("prototype", 9)] true).1.staticProps "prototype").map
        PropDesc.value ≠ some 9 ∧
    (dictGet (loadStatics { emptyModel with
        staticProps := [("prototype", ⟨0, false, false, false⟩)] }
        [("prototype", 9)] true).1.staticProps "prototype").map
        PropDesc.value = some 0 := by
  refine ⟨by decide, by decide, by decide⟩

/-- C7 (amended): `loadStatics` emits a warning (when warn=true) exactly for
the input names already directly addressable on the Target itself, then
performs a sloppy-mode assignment: an own writable member is overwritten
keeping its attributes, a fresh name not blocked by the chain is created as
an ordinary writable, enumerable, configurable member, and a non-writable own
member silently absorbs the write (the warning is still emitted); the
findById scenario — an ordinary writable member — emits exactly the literal
warning and ends with the new callable installed. -/
theorem C7_statics_warn_iff_member (m : ModelState) (sm : Dict Callable)
    (hnd : (dictKeys sm).Nodup) :
    (loadStatics m sm true).2 =
      ((dictKeys sm).filter (fun k => staticHas m k)).map
        (overrideWarning "static") ∧
    (∀ n v, dictGet sm n = some v → ∀ cur,
      dictGet m.staticProps n = some cur → cur.writable = true →
      dictGet (loadStatics m sm true).1.staticProps n =
        some { cur with value := v }) ∧
    (∀ n v, dictGet sm n = some v →
      dictGet m.staticProps n = none →
      inheritedBlocks m.staticInherited n = false →
      dictGet (loadStatics m sm true).1.staticProps n =
        some ⟨v, true, true, true⟩) ∧
    (∀ n v, dictGet sm n = some v → ∀ cur,
      dictGet m.staticProps n = some cur → cur.writable = false →
      dictGet (loadStatics m sm true).1.staticProps n = some cur) ∧
    (loadStatics { emptyModel with
        staticProps := [("findById", ⟨0, true, true, true⟩)] }
        [("findById", 1)] true).2 =
      ["Existing [static] method [findById] overridden by loadExternalMethods"] ∧
    (dictGet (loadStatics { emptyModel with
        staticProps := [("findById", ⟨0, true, true, true⟩)] }
        [("findById", 1)] true).1.staticProps "findById").map
        PropDesc.value = some 1 := by
  have hstate := loadStaticsLoop_state sm m true
  refine ⟨loadStaticsLoop_of_warn sm m hnd, ?_, ?_, ?_, by decide, by decide⟩
  · intro n v hget cur hcur hw
    have hchar := dictGet_jsAssignAll sm hnd m.staticProps m.staticInherited n
    show dictGet (loadStaticsLoop m true sm).1.staticProps n =
      some { cur with value := v }
    simp only [hstate]
    simp [hchar, hget, hcur, hw]
  · intro n v hget hcur hnb
    have hchar := dictGet_jsAssignAll sm hnd m.staticProps m.staticInherited n
    show dictGet (loadStaticsLoop m true sm).1.staticProps n =
      some ⟨v, true, true, true⟩
    simp only [hstate]
    simp [hchar, hget, hcur, hnb]
  · intro n v hget cur hcur hw
    have hchar := dictGet_jsAssignAll sm hnd m.staticProps m.staticInherited n
    show dictGet (loadStaticsLoop m true sm).1.staticProps n = some cur
    simp only [hstate]
    simp [hchar, hget, hcur, hw]

/-- Witness for C7 (amended) at a concrete input. -/
theorem C7_witness :
    (dictKeys ([("findById", 1), ("fresh", 2)] : Dict Callable)).Nodup ∧
    (loadStatics { emptyModel with
        staticProps := [("findById", ⟨0, true, true, true⟩)] }
        [("findById", 1), ("fresh", 2)] true).2 =
      ["Existing [static] method [findById] overridden by loadExternalMethods"] := by
  refine ⟨by decide, ?_⟩
  have h := (C7_statics_warn_iff_member
    { emptyModel with
      staticProps := [("findById", ⟨0, true, true, true⟩)] }
    [("findById", 1), ("fresh", 2)] (by decide)).1
  rw [h]
  decide

/-- C9 is false as stated: over a Target with all regions empty, merging a
name visible through a prototype chain still emits a warning, and a
chain-blocked static name is not even written — `toString` is an
`Object.prototype` member seen by the getters-region check, and a Target
inheriting a non-writable `name` member warns and silently drops the
assignment. -/
theorem C9_counterexample :
    (loadGetters emptyModel [("toString", 5)] true).2 ≠ [] ∧
    (loadStatics { emptyModel with staticInherited := [("name", true)] }
        [("name", 3)] true).2 ≠ [] ∧
    dictGet (loadStatics { emptyModel with
        staticInherited := [("name", true)] }
        [("name", 3)] true).1.staticProps "name" = none := by
  refine ⟨by decide, by decide, by decide⟩

/-- C9 (amended): for every Target whose own regions (and the option mappings
backing the getter/setter regions) are empty, and every mapping M with
distinct names, each merger installs every name of M in its targeted region
with its callable from M — unconditionally for getters, setters and instance
methods, and for statics whenever the name is not blocked by a non-writable
or diverting inherited member; no warnings are emitted except one per input
name visible through the relevant prototype chain (`Object.prototype` members
for the getters/setters regions, inherited names for the instance-methods and
statics namespaces). -/
theorem C9_empty_target_merge (T : ModelState) (M : Dict Callable)
    (hnd : (dictKeys M).Nodup)
    (hT : T.customGetters = [] ∧ T.customSetters = [] ∧
      T.optionsGetterMethods = [] ∧ T.optionsSetterMethods = [] ∧
      T.protoProps = [] ∧ T.staticProps = []) :
    (∀ n v, dictGet M n = some v →
      dictGet (loadGetters T M true).1.customGetters n = some v) ∧
    (loadGetters T M true).2 =
      ((dictKeys M).filter (fun k => objectProtoNames.contains k)).map
        (overrideWarning "getterMethods") ∧
    (∀ n v, dictGet M n = some v →
      dictGet (loadSetters T M true).1.customSetters n = some v) ∧
    (loadSetters T M true).2 =
      ((dictKeys M).filter (fun k => objectProtoNames.contains k)).map
        (overrideWarning "setterMethods") ∧
    (∀ n v, dictGet M n = some v →
      (dictGet (loadPrototypes T M true).state.protoProps n).map
        PropDesc.value = some v) ∧
    (loadPrototypes T M true).warnings =
      ((dictKeys M).filter (fun k => T.protoInherited.contains k)).map
        (overrideWarning "prototype") ∧
    (loadPrototypes T M true).threw = false ∧
    (∀ n v, dictGet M n = some v →
      inheritedBlocks T.staticInherited n = false →
      dictGet (loadStatics T M true).1.staticProps n =
        some ⟨v, true, true, true⟩) ∧
    (loadStatics T M true).2 =
      ((dictKeys M).filter (fun k => dictHas T.staticInherited k)).map
        (overrideWarning "static") := by
  obtain ⟨hCG, hCS, hOG, hOS, hPP, hSP⟩ := hT
  have hfreshP : ∀ k ∈ dictKeys M, dictHas T.protoProps k = false := by
    intro k _
    rw [hPP]
    rfl
  have hp := loadPrototypesLoop_fresh M T hnd hfreshP
  refine ⟨?_, ?_, ?_, ?_, ?_, ?_, hp.1, ?_, ?_⟩
  · intro n v hget
    have hhas : dictHas M n = true := by
      rw [dictHas, hget]
      rfl
    show dictGet (dictSetAll T.optionsGetterMethods M) n = some v
    rw [hOG, dictGet_dictSetAll M hnd [] n, if_pos hhas, hget]
  · show warnExisting "getterMethods"
      (fun n => objectHas T.customGetters n) true (dictKeys M) = _
    rw [warnExisting_of_warn]
    have hfun : ∀ k, objectHas T.customGetters k =
        objectProtoNames.contains k := by
      intro k
      rw [objectHas, hCG]
      rfl
    simp only [hfun]
  · intro n v hget
    have hhas : dictHas M n = true := by
      rw [dictHas, hget]
      rfl
    show dictGet (dictSetAll T.optionsSetterMethods M) n = some v
    rw [hOS, dictGet_dictSetAll M hnd [] n, if_pos hhas, hget]
  · show warnExisting "setterMethods"
      (fun n => objectHas T.customSetters n) true (dictKeys M) = _
    rw [warnExisting_of_warn]
    have hfun : ∀ k, objectHas T.customSetters k =
        objectProtoNames.contains k := by
      intro k
      rw [objectHas, hCS]
      rfl
    simp only [hfun]
  · intro n v hget
    show (dictGet
      (loadPrototypesLoop T true M).state.protoProps n).map
      PropDesc.value = some v
    rw [hp.2.2 n v hget]
    rfl
  · show (loadPrototypesLoop T true M).warnings = _
    rw [hp.2.1]
    have hfun : ∀ k, protoHas T k = T.protoInherited.contains k := by
      intro k
      rw [protoHas, hPP]
      rfl
    simp only [hfun]
  · intro n v hget hnb
    have hchar := dictGet_jsAssignAll M hnd T.staticProps T.staticInherited n
    have hspn : dictGet T.staticProps n = none := by
      rw [hSP]
      rfl
    show dictGet (loadStaticsLoop T true M).1.staticProps n =
      some ⟨v, true, true, true⟩
    simp only [loadStaticsLoop_state M T true]
    simp [hchar, hget, hspn, hnb]
  · show (loadStaticsLoop T true M).2 = _
    rw [loadStaticsLoop_of_warn M T hnd]
    have hfun : ∀ k, staticHas T k = dictHas T.staticInherited k := by
      intro k
      rw [staticHas, hSP]
      rfl
    simp only [hfun]

/-- Witness for C9 (amended) at a concrete input: an `Object.prototype` name
merged over an empty region warns but is still installed. -/
theorem C9_witness :
    ((dictKeys ([("toString", 7)] : Dict Callable)).Nodup ∧
     (emptyModel.customGetters = [] ∧ emptyModel.customSetters = [] ∧
      emptyModel.optionsGetterMethods = [] ∧
      emptyModel.optionsSetterMethods = [] ∧
      emptyModel.protoProps = [] ∧ emptyModel.staticProps = [])) ∧
    dictGet (loadGetters emptyModel [("toString", 7)] true).1.customGetters
      "toString" = some 7 ∧
    (loadGetters emptyModel [("toString", 7)] true).2 =
      [overrideWarning "getterMethods" "toString"] := by
  refine ⟨⟨by decide, by decide⟩, ?_, ?_⟩
  · exact (C9_empty_target_merge emptyModel [("toString", 7)] (by decide)
      (by decide)).1 "toString" 7 (by decide)
  · have h := (C9_empty_target_merge emptyModel [("toString", 7)] (by decide)
      (by decide)).2.1
    rw [h]
    decide

/-- Turning warnings off changes no state anywhere in the composer: helper
for the non-interference claim. -/
theorem loadExternalMethods_warn_free (m : ModelState) (b : MethodBundle) :
    (loadExternalMethods m b false).warnings = [] ∧
    (loadExternalMethods m b false).state =
      (loadExternalMethods m b true).state ∧
    (loadExternalMethods m b false).threw =
      (loadExternalMethods m b true).threw := by
  obtain ⟨hst, hth, hwa⟩ := loadPrototypesLoop_warn_independent
    (b.prototypeMethods.getD [])
    (loadSetters (loadGetters m (b.getterMethods.getD []) true).1
      (b.setterMethods.getD []) true).1
  simp only [loadExternalMethods, loadGetters, loadSetters, loadPrototypes,
    loadStatics] at hst hth hwa ⊢
  rw [hwa, hth, hst]
  refine ⟨?_, ?_, ?_⟩ <;>
    split <;>
      simp_all [warnExisting_of_not_warn, loadStaticsLoop_of_not_warn,
        loadStaticsLoop_state]

/-- C3: for every Target, every merge operation and every input, running with
warn=false emits no warning, and the resulting Target state (and thrown-error
status) is identical to running the same operation with warn=true: the warn
flag influences only observability, never written results. -/
theorem C3_warn_flag_noninterference (m : ModelState) (d : Dict Callable)
    (b : MethodBundle) :
    (loadGetters m d false).2 = [] ∧
    (loadGetters m d false).1 = (loadGetters m d true).1 ∧
    (loadSetters m d false).2 = [] ∧
    (loadSetters m d false).1 = (loadSetters m d true).1 ∧
    (loadPrototypes m d false).warnings = [] ∧
    (loadPrototypes m d false).state = (loadPrototypes m d true).state ∧
    (loadPrototypes m d false).threw = (loadPrototypes m d true).threw ∧
    (loadStatics m d false).2 = [] ∧
    (loadStatics m d false).1 = (loadStatics m d true).1 ∧
    (loadExternalMethods m b false).warnings = [] ∧
    (loadExternalMethods m b false).state =
      (loadExternalMethods m b true).state ∧
    (loadExternalMethods m b false).threw =
      (loadExternalMethods m b true).threw := by
  obtain ⟨hp1, hp2, hp3⟩ := loadPrototypesLoop_warn_independent d m
  obtain ⟨hc1, hc2, hc3⟩ := loadExternalMethods_warn_free m b
  refine ⟨?_, rfl, ?_, rfl, hp3, hp1, hp2, ?_, ?_, hc1, hc2, hc3⟩
  · exact warnExisting_of_not_warn "getterMethods"
      (fun n => objectHas m.customGetters n) (dictKeys d)
  · exact warnExisting_of_not_warn "setterMethods"
      (fun n => objectHas m.customSetters n) (dictKeys d)
  · exact loadStaticsLoop_of_not_warn d m
  · show (loadStaticsLoop m false d).1 = (loadStaticsLoop m true d).1
    rw [loadStaticsLoop_state, loadStaticsLoop_state]

/-- On a well-formed Model, rebuilding the getter/setter regions from the
option mappings changes nothing. -/
theorem refreshAttributes_of_synced (m : ModelState) (hs : Synced m) :
    refreshAttributes m = m := by
  obtain ⟨h1, h2, h3, h4⟩ := hs
  cases m
  simp_all [refreshAttributes]

/-- C8: for every well-formed Target, `loadExternalMethods` applied to an
empty MethodBundle leaves the Target unchanged and emits no warnings, and each
individual merger applied to an empty input mapping performs no writes and
emits no warnings (in particular no entry count changes). -/
theorem C8_empty_inputs_noop (m : ModelState) (warn : Bool) (hs : Synced m) :
    loadExternalMethods m emptyBundle warn = ⟨m, [], false⟩ ∧
    loadGetters m [] warn = (m, []) ∧
    loadSetters m [] warn = (m, []) ∧
    loadPrototypes m [] warn = ⟨m, [], false⟩ ∧
    loadStatics m [] warn = (m, []) := by
  have hre := refreshAttributes_of_synced m hs
  have hcomp : loadExternalMethods m emptyBundle warn =
      ⟨refreshAttributes (refreshAttributes m), [], false⟩ := rfl
  have hg : loadGetters m [] warn = (refreshAttributes m, []) := rfl
  have hsets : loadSetters m [] warn = (refreshAttributes m, []) := rfl
  refine ⟨?_, ?_, ?_, rfl, rfl⟩
  · rw [hcomp, hre, hre]
  · rw [hg, hre]
  · rw [hsets, hre]

/-- Witness for C8 at a concrete input. -/
theorem C8_witness :
    Synced emptyModel ∧
    loadExternalMethods emptyModel emptyBundle true =
      ⟨emptyModel, [], false⟩ := by
  refine ⟨by decide, ?_⟩
  exact (C8_empty_inputs_noop emptyModel true (by decide)).1

/-- C1 is false as stated: (a) for the instance-methods region, merging
{m: V1} and then {m: V2} with V1 = 0, V2 = 1 does not leave the region
holding V2 — the second `Object.defineProperty` throws a TypeError and the
region keeps V1 — and (b) for a Target already holding the merged name, the
first merge emits a warning rather than zero. -/
theorem C1_counterexample :
    (dictGet (loadPrototypes (loadPrototypes emptyModel [("m", 0)] true).state
        [("m", 1)] true).state.protoProps "m").map PropDesc.value ≠ some 1 ∧
    (loadPrototypes (loadPrototypes emptyModel [("m", 0)] true).state
        [("m", 1)] true).threw = true ∧
    (loadGetters { emptyModel with
        optionsGetterMethods := [("m", 9)]
        customGetters := [("m", 9)]
        hasCustomGetters := 1 }
        [("m", 0)] true).2 ≠ [] := by
  refine ⟨by decide, by decide, by decide⟩

/-- C1 (amended): for every Target in which the name n is not yet visible to
the targeted region membership check (`in` on the backing object — for the
getters/setters regions this also excludes `Object.prototype` names), merging
{n: V1} then {n: V2} behaves as claimed for the getters, setters and statics
regions — region holds V2, one warning on the second merge, zero on the
first — while for the instance-methods region the second merge emits the one
warning but then `Object.defineProperty` throws a TypeError whenever V2
differs from V1, leaving V1 installed; only when V2 equals V1 does the call
complete. -/
theorem C1_last_write_wins (m : ModelState) (n : String) (v1 v2 : Callable)
    (hg : objectHas m.customGetters n = false)
    (hs : objectHas m.customSetters n = false)
    (hp : protoHas m n = false)
    (hst : staticHas m n = false) :
    (loadGetters m [(n, v1)] true).2 = [] ∧
    (loadGetters (loadGetters m [(n, v1)] true).1 [(n, v2)] true).2 =
      [overrideWarning "getterMethods" n] ∧
    dictGet ((loadGetters (loadGetters m [(n, v1)] true).1
        [(n, v2)] true).1.customGetters) n = some v2 ∧
    (loadSetters m [(n, v1)] true).2 = [] ∧
    (loadSetters (loadSetters m [(n, v1)] true).1 [(n, v2)] true).2 =
      [overrideWarning "setterMethods" n] ∧
    dictGet ((loadSetters (loadSetters m [(n, v1)] true).1
        [(n, v2)] true).1.customSetters) n = some v2 ∧
    (loadStatics m [(n, v1)] true).2 = [] ∧
    (loadStatics (loadStatics m [(n, v1)] true).1 [(n, v2)] true).2 =
      [overrideWarning "static" n] ∧
    (dictGet ((loadStatics (loadStatics m [(n, v1)] true).1
        [(n, v2)] true).1.staticProps) n).map PropDesc.value = some v2 ∧
    (loadPrototypes m [(n, v1)] true).warnings = [] ∧
    (loadPrototypes m [(n, v1)] true).threw = false ∧
    (loadPrototypes (loadPrototypes m [(n, v1)] true).state
        [(n, v2)] true).warnings = [overrideWarning "prototype" n] ∧
    (v2 ≠ v1 →
      (loadPrototypes (loadPrototypes m [(n, v1)] true).state
          [(n, v2)] true).threw = true ∧
      dictGet (loadPrototypes (loadPrototypes m [(n, v1)] true).state
          [(n, v2)] true).state.protoProps n =
        some ⟨v1, false, false, false⟩) ∧
    (v2 = v1 →
      (loadPrototypes (loadPrototypes m [(n, v1)] true).state
          [(n, v2)] true).threw = false ∧
      dictGet (loadPrototypes (loadPrototypes m [(n, v1)] true).state
          [(n, v2)] true).state.protoProps n =
        some ⟨v2, false, false, false⟩) := by
  -- single-entry normal forms for the four loaders
  have hgw : ∀ (mm : ModelState) (v : Callable),
      (loadGetters mm [(n, v)] true).2 =
        (if objectHas mm.customGetters n then
          [overrideWarning "getterMethods" n] else []) := by
    intro mm v
    simp [loadGetters, warnExisting, dictKeys]
  have hgs : ∀ (mm : ModelState) (v : Callable),
      (loadGetters mm [(n, v)] true).1.customGetters =
        dictSet mm.optionsGetterMethods n v := fun _ _ => rfl
  have hgo : ∀ (mm : ModelState) (v : Callable),
      (loadGetters mm [(n, v)] true).1.optionsGetterMethods =
        dictSet mm.optionsGetterMethods n v := fun _ _ => rfl
  have hsw : ∀ (mm : ModelState) (v : Callable),
      (loadSetters mm [(n, v)] true).2 =
        (if objectHas mm.customSetters n then
          [overrideWarning "setterMethods" n] else []) := by
    intro mm v
    simp [loadSetters, warnExisting, dictKeys]
  have hss : ∀ (mm : ModelState) (v : Callable),
      (loadSetters mm [(n, v)] true).1.customSetters =
        dictSet mm.optionsSetterMethods n v := fun _ _ => rfl
  have hso : ∀ (mm : ModelState) (v : Callable),
      (loadSetters mm [(n, v)] true).1.optionsSetterMethods =
        dictSet mm.optionsSetterMethods n v := fun _ _ => rfl
  have hstw : ∀ (mm : ModelState) (v : Callable),
      (loadStatics mm [(n, v)] true).2 =
        (if staticHas mm n then [overrideWarning "static" n] else []) := by
    intro mm v
    simp [loadStatics, loadStaticsLoop]
  have hstp : ∀ (mm : ModelState) (v : Callable),
      (loadStatics mm [(n, v)] true).1.staticProps =
        jsAssign mm.staticProps mm.staticInherited n v := fun _ _ => rfl
  have hsti : ∀ (mm : ModelState) (v : Callable),
      (loadStatics mm [(n, v)] true).1.staticInherited =
        mm.staticInherited := fun _ _ => rfl
  -- the fresh name is neither an own static member nor chain-blocked
  have hstown : dictHas m.staticProps n = false :=
    (Bool.or_eq_false_iff.mp hst).1
  have hstinh : dictHas m.staticInherited n = false :=
    (Bool.or_eq_false_iff.mp hst).2
  have hstnone : dictGet m.staticProps n = none :=
    dictGet_eq_none_of_not_has m.staticProps n hstown
  have hnb : inheritedBlocks m.staticInherited n = false := by
    rw [inheritedBlocks, dictGet_eq_none_of_not_has m.staticInherited n hstinh]
    rfl
  have hja1 : jsAssign m.staticProps m.staticInherited n v1 =
      dictSet m.staticProps n ⟨v1, true, true, true⟩ := by
    simp [jsAssign, hstnone, hnb]
  -- first prototype merge
  have hpown : dictHas m.protoProps n = false := (Bool.or_eq_false_iff.mp hp).1
  have hdef1 := definePropertyValue_of_fresh m.protoProps n v1 hpown
  have hp1 : loadPrototypes m [(n, v1)] true =
      ⟨{ m with
          protoProps := dictSet m.protoProps n ⟨v1, false, false, false⟩ },
        [], false⟩ := by
    simp [loadPrototypes, loadPrototypesLoop, hdef1, hp]
  have hhasD1 : dictHas
      (dictSet m.protoProps n ⟨v1, false, false, false⟩) n = true := by
    rw [dictHas, dictGet_dictSet_self]
    rfl
  have hph1 : protoHas
      { m with
        protoProps := dictSet m.protoProps n ⟨v1, false, false, false⟩ }
      n = true := by
    unfold protoHas
    rw [show ({ m with
        protoProps :=
          dictSet m.protoProps n ⟨v1, false, false, false⟩ } :
        ModelState).protoProps =
      dictSet m.protoProps n ⟨v1, false, false, false⟩ from rfl, hhasD1]
    simp
  refine ⟨?_, ?_, ?_, ?_, ?_, ?_, ?_, ?_, ?_, ?_, ?_, ?_, ?_, ?_⟩
  · rw [hgw m v1, hg]
    rfl
  · rw [hgw _ v2, hgs m v1, objectHas, dictHas, dictGet_dictSet_self]
    simp
  · rw [hgs _ v2, hgo m v1, dictGet_dictSet_self]
  · rw [hsw m v1, hs]
    rfl
  · rw [hsw _ v2, hss m v1, objectHas, dictHas, dictGet_dictSet_self]
    simp
  · rw [hss _ v2, hso m v1, dictGet_dictSet_self]
  · rw [hstw m v1, hst]
    rfl
  · have h2 : staticHas (loadStatics m [(n, v1)] true).1 n = true := by
      rw [staticHas, hstp m v1, hja1, dictHas, dictGet_dictSet_self]
      rfl
    rw [hstw _ v2, h2]
    rfl
  · rw [hstp _ v2, hstp m v1, hja1, hsti m v1]
    have hget1 : dictGet (dictSet m.staticProps n ⟨v1, true, true, true⟩) n =
        some ⟨v1, true, true, true⟩ := dictGet_dictSet_self _ _ _
    simp [jsAssign, hget1, dictGet_dictSet_self]
  · rw [hp1]
  · rw [hp1]
  · rw [hp1]
    by_cases hv : v2 = v1
    · subst hv
      simp [loadPrototypes, loadPrototypesLoop, definePropertyValue,
        dictGet_dictSet_self, hph1]
    · simp [loadPrototypes, loadPrototypesLoop, definePropertyValue,
        dictGet_dictSet_self, hph1, hv]
  · intro hv
    rw [hp1]
    constructor
    · simp [loadPrototypes, loadPrototypesLoop, definePropertyValue,
        dictGet_dictSet_self, hv]
    · simp [loadPrototypes, loadPrototypesLoop, definePropertyValue,
        dictGet_dictSet_self, hv, hph1]
  · intro hv
    subst hv
    rw [hp1]
    constructor
    · simp [loadPrototypes, loadPrototypesLoop, definePropertyValue,
        dictGet_dictSet_self]
    · simp [loadPrototypes, loadPrototypesLoop, definePropertyValue,
        dictGet_dictSet_self]

/-- Witness for C1 (amended) at a concrete input. -/
theorem C1_witness :
    (objectHas emptyModel.customGetters "m" = false ∧
     objectHas emptyModel.customSetters "m" = false ∧
     protoHas emptyModel "m" = false ∧
     staticHas emptyModel "m" = false) ∧
    (loadGetters emptyModel [("m", 0)] true).2 = [] ∧
    dictGet ((loadGetters (loadGetters emptyModel [("m", 0)] true).1
        [("m", 1)] true).1.customGetters) "m" = some 1 := by
  refine ⟨⟨by decide, by decide, by decide, by decide⟩, ?_, ?_⟩
  · exact (C1_last_write_wins emptyModel "m" 0 1 (by decide) (by decide)
      (by decide) (by decide)).1
  · exact (C1_last_write_wins emptyModel "m" 0 1 (by decide) (by decide)
      (by decide) (by decide)).2.2.1

/-- C2 is false as stated: installing over a pre-existing configurable own
prototype property (created by plain assignment, as in the repository tests)
keeps that property writable and configurable — so not every installed method
is non-writable/non-configurable/non-enumerable — and a later `loadPrototypes`
call supplying a different callable for that previously-installed name
overwrites it without any TypeError. -/
theorem C2_counterexample :
    (loadPrototypes { emptyModel with
        protoProps := [("u", ⟨7, true, true, true⟩)] }
        [("u", 5)] true).threw = false ∧
    dictGet (loadPrototypes { emptyModel with
        protoProps := [("u", ⟨7, true, true, true⟩)] }
        [("u", 5)] true).state.protoProps "u" = some ⟨5, true, true, true⟩ ∧
    (loadPrototypes (loadPrototypes { emptyModel with
        protoProps := [("u", ⟨7, true, true, true⟩)] }
        [("u", 5)] true).state [("u", 6)] true).threw = false ∧
    dictGet (loadPrototypes (loadPrototypes { emptyModel with
        protoProps := [("u", ⟨7, true, true, true⟩)] }
        [("u", 5)] true).state [("u", 6)] true).state.protoProps "u" =
      some ⟨6, true, true, true⟩ := by
  refine ⟨by decide, by decide, by decide, by decide⟩

/-- C2 (amended): `loadPrototypes` installs each method with
`Object.defineProperty` using only a value descriptor, so a method installed
under a name that was not previously an own property is non-writable,
non-configurable and non-enumerable (redefinition keeps the current
attributes); consequently a later `loadPrototypes` call supplying a different
callable for a name whose own property is so locked — as every fresh install
by `loadPrototypes` is — raises a TypeError instead of overwriting, with
names processed earlier in that call merged and names after the failing one
untouched (partial mutation on failure). -/
theorem C2_defineProperty_value_descriptor (m : ModelState)
    (p n a b : String) (f fa fb v1 v2 : Callable) (w : Bool)
    (hfp : dictHas m.protoProps p = false)
    (hn : dictGet m.protoProps n = some ⟨v1, false, false, false⟩)
    (hv : v2 ≠ v1)
    (ha : dictHas m.protoProps a = false)
    (han : a ≠ n) (hba : b ≠ a) :
    dictGet (loadPrototypes m [(p, f)] w).state.protoProps p =
      some ⟨f, false, false, false⟩ ∧
    (loadPrototypes m [(a, fa), (n, v2), (b, fb)] w).threw = true ∧
    dictGet (loadPrototypes m [(a, fa), (n, v2), (b, fb)] w).state.protoProps
      a = some ⟨fa, false, false, false⟩ ∧
    dictGet (loadPrototypes m [(a, fa), (n, v2), (b, fb)] w).state.protoProps
      n = some ⟨v1, false, false, false⟩ ∧
    dictGet (loadPrototypes m [(a, fa), (n, v2), (b, fb)] w).state.protoProps
      b = dictGet m.protoProps b := by
  have hdefa := definePropertyValue_of_fresh m.protoProps a fa ha
  have hgetDan : dictGet (dictSet m.protoProps a ⟨fa, false, false, false⟩)
      n = some ⟨v1, false, false, false⟩ := by
    rw [dictGet_dictSet_of_ne m.protoProps a n _ (Ne.symm han)]
    exact hn
  have hdefn : definePropertyValue
      (dictSet m.protoProps a ⟨fa, false, false, false⟩) n v2 = none := by
    simp [definePropertyValue, hgetDan, hv]
  refine ⟨?_, ?_, ?_, ?_, ?_⟩
  · have hdefp := definePropertyValue_of_fresh m.protoProps p f hfp
    simp [loadPrototypes, loadPrototypesLoop, hdefp, dictGet_dictSet_self]
  · simp [loadPrototypes, loadPrototypesLoop, hdefa, hdefn]
  · simp [loadPrototypes, loadPrototypesLoop, hdefa, hdefn,
      dictGet_dictSet_self]
  · simp [loadPrototypes, loadPrototypesLoop, hdefa, hdefn, hgetDan]
  · simp [loadPrototypes, loadPrototypesLoop, hdefa, hdefn,
      dictGet_dictSet_of_ne m.protoProps a b _ hba]

/-- Witness for C2 at a concrete input. -/
theorem C2_witness :
    (dictHas ({ emptyModel with
        protoProps := [("n", ⟨0, false, false, false⟩)] } :
        ModelState).protoProps "p" = false ∧
     dictGet ({ emptyModel with
        protoProps := [("n", ⟨0, false, false, false⟩)] } :
        ModelState).protoProps "n" = some ⟨0, false, false, false⟩ ∧
     (1 : Callable) ≠ 0) ∧
    (loadPrototypes { emptyModel with
        protoProps := [("n", ⟨0, false, false, false⟩)] }
      [("a", 4), ("n", 1), ("b", 5)] true).threw = true ∧
    dictGet (loadPrototypes { emptyModel with
        protoProps := [("n", ⟨0, false, false, false⟩)] }
      [("a", 4), ("n", 1), ("b", 5)] true).state.protoProps "n" =
      some ⟨0, false, false, false⟩ := by
  refine ⟨⟨by decide, by decide, by decide⟩, ?_, ?_⟩
  · exact (C2_defineProperty_value_descriptor
      { emptyModel with protoProps := [("n", ⟨0, false, false, false⟩)] }
      "p" "n" "a" "b" 3 4 5 0 1 true (by decide) (by decide) (by decide)
      (by decide) (by decide) (by decide)).2.1
  · exact (C2_defineProperty_value_descriptor
      { emptyModel with protoProps := [("n", ⟨0, false, false, false⟩)] }
      "p" "n" "a" "b" 3 4 5 0 1 true (by decide) (by decide) (by decide)
      (by decide) (by decide) (by decide)).2.2.2.1

/-- C5: on a well-formed Target, a single `loadGetters` (resp. `loadSetters`)
call increases the getters (resp. setters) entry count by exactly the number
of input names not already present in the region; already-present names never
increment it, the count never decreases, and it always equals the number of
entries of the region. -/
theorem C5_region_entry_counts (m : ModelState) (gm sm : Dict Callable)
    (warn : Bool) (hsync : Synced m)
    (hgm : (dictKeys gm).Nodup) (hsm : (dictKeys sm).Nodup) :
    (loadGetters m gm warn).1.hasCustomGetters =
      m.hasCustomGetters +
        ((dictKeys gm).filter
          (fun k => !(dictHas m.customGetters k))).length ∧
    m.hasCustomGetters ≤ (loadGetters m gm warn).1.hasCustomGetters ∧
    (loadGetters m gm warn).1.hasCustomGetters =
      (loadGetters m gm warn).1.customGetters.length ∧
    (loadSetters m sm warn).1.hasCustomSetters =
      m.hasCustomSetters +
        ((dictKeys sm).filter
          (fun k => !(dictHas m.customSetters k))).length ∧
    m.hasCustomSetters ≤ (loadSetters m sm warn).1.hasCustomSetters ∧
    (loadSetters m sm warn).1.hasCustomSetters =
      (loadSetters m sm warn).1.customSetters.length := by
  obtain ⟨h1, h2, h3, h4⟩ := hsync
  have hglen : (loadGetters m gm warn).1.hasCustomGetters =
      (dictSetAll m.optionsGetterMethods gm).length := rfl
  have hslen : (loadSetters m sm warn).1.hasCustomSetters =
      (dictSetAll m.optionsSetterMethods sm).length := rfl
  refine ⟨?_, ?_, rfl, ?_, ?_, rfl⟩
  · rw [hglen, length_dictSetAll gm hgm, h3, h1]
  · rw [hglen, length_dictSetAll gm hgm, h3]
    omega
  · rw [hslen, length_dictSetAll sm hsm, h4, h2]
  · rw [hslen, length_dictSetAll sm hsm, h4]
    omega

/-- Witness for C5 at a concrete input: one name already present, one new. -/
theorem C5_witness :
    (Synced { emptyModel with
        optionsGetterMethods := [("g", 1)]
        customGetters := [("g", 1)]
        hasCustomGetters := 1 } ∧
     (dictKeys ([("g", 5), ("h", 6)] : Dict Callable)).Nodup ∧
     (dictKeys ([] : Dict Callable)).Nodup) ∧
    (loadGetters { emptyModel with
        optionsGetterMethods := [("g", 1)]
        customGetters := [("g", 1)]
        hasCustomGetters := 1 }
      [("g", 5), ("h", 6)] true).1.hasCustomGetters = 2 := by
  refine ⟨⟨by decide, by decide, by decide⟩, ?_⟩
  have h := (C5_region_entry_counts
    { emptyModel with
      optionsGetterMethods := [("g", 1)]
      customGetters := [("g", 1)]
      hasCustomGetters := 1 }
    [("g", 5), ("h", 6)] [] true (by decide) (by decide) (by decide)).1
  rw [h]
  decide

/-- C6: merging never removes existing entries: on a well-formed Target,
every name present in a region before a merge is still present in that region
afterwards, with its original callable unless the input mapping supplies that
name, and the regions a merger does not target are left exactly as they
were. -/
theorem C6_merge_additive (m : ModelState) (name : String)
    (gm sm pm stm : Dict Callable) (warn : Bool) (hsync : Synced m) :
    (dictHas m.customGetters name = true →
      dictHas (loadGetters m gm warn).1.customGetters name = true) ∧
    (dictHas gm name = false →
      dictGet (loadGetters m gm warn).1.customGetters name =
        dictGet m.customGetters name) ∧
    (loadGetters m gm warn).1.customSetters = m.customSetters ∧
    (loadGetters m gm warn).1.protoProps = m.protoProps ∧
    (loadGetters m gm warn).1.staticProps = m.staticProps ∧
    (dictHas m.customSetters name = true →
      dictHas (loadSetters m sm warn).1.customSetters name = true) ∧
    (dictHas sm name = false →
      dictGet (loadSetters m sm warn).1.customSetters name =
        dictGet m.customSetters name) ∧
    (loadSetters m sm warn).1.customGetters = m.customGetters ∧
    (loadSetters m sm warn).1.protoProps = m.protoProps ∧
    (loadSetters m sm warn).1.staticProps = m.staticProps ∧
    (dictHas m.protoProps name = true →
      dictHas (loadPrototypes m pm warn).state.protoProps name = true) ∧
    (dictHas pm name = false →
      dictGet (loadPrototypes m pm warn).state.protoProps name =
        dictGet m.protoProps name) ∧
    (loadPrototypes m pm warn).state.customGetters = m.customGetters ∧
    (loadPrototypes m pm warn).state.customSetters = m.customSetters ∧
    (loadPrototypes m pm warn).state.staticProps = m.staticProps ∧
    (dictHas m.staticProps name = true →
      dictHas (loadStatics m stm warn).1.staticProps name = true) ∧
    (dictHas stm name = false →
      dictGet (loadStatics m stm warn).1.staticProps name =
        dictGet m.staticProps name) ∧
    (loadStatics m stm warn).1.customGetters = m.customGetters ∧
    (loadStatics m stm warn).1.customSetters = m.customSetters ∧
    (loadStatics m stm warn).1.protoProps = m.protoProps := by
  obtain ⟨h1, h2, h3, h4⟩ := hsync
  obtain ⟨_, _, hpcg, hpcs, _, _, _, hpsp, _⟩ :=
    loadPrototypesLoop_other_fields pm m warn
  have hstS : (loadStatics m stm warn).1 =
      { m with staticProps :=
          jsAssignAll m.staticProps m.staticInherited stm } :=
    loadStaticsLoop_state stm m warn
  refine ⟨?_, ?_, ?_, rfl, rfl, ?_, ?_, ?_, rfl, rfl, ?_, ?_, hpcg, hpcs,
    hpsp, ?_, ?_, ?_, ?_, ?_⟩
  · intro hpre
    show dictHas (dictSetAll m.optionsGetterMethods gm) name = true
    rw [dictHas_dictSetAll]
    rw [h1] at hpre
    simp [hpre]
  · intro hnot
    show dictGet (dictSetAll m.optionsGetterMethods gm) name =
      dictGet m.customGetters name
    rw [dictGet_dictSetAll_of_not_has gm m.optionsGetterMethods name hnot, h1]
  · exact h2.symm
  · intro hpre
    show dictHas (dictSetAll m.optionsSetterMethods sm) name = true
    rw [dictHas_dictSetAll]
    rw [h2] at hpre
    simp [hpre]
  · intro hnot
    show dictGet (dictSetAll m.optionsSetterMethods sm) name =
      dictGet m.customSetters name
    rw [dictGet_dictSetAll_of_not_has sm m.optionsSetterMethods name hnot, h2]
  · exact h1.symm
  · intro hpre
    exact loadPrototypesLoop_has_preserved pm m warn name hpre
  · intro hnot
    have hmem : name ∉ dictKeys pm := by
      intro hmem
      rw [dictHas_of_mem_keys pm name hmem] at hnot
      cases hnot
    exact loadPrototypesLoop_get_of_not_mem pm m warn name hmem
  · intro hpre
    rw [hstS]
    show dictHas (jsAssignAll m.staticProps m.staticInherited stm) name = true
    exact jsAssignAll_has_preserved stm m.staticProps m.staticInherited
      name hpre
  · intro hnot
    rw [hstS]
    show dictGet (jsAssignAll m.staticProps m.staticInherited stm) name =
      dictGet m.staticProps name
    exact jsAssignAll_get_of_not_has stm m.staticProps m.staticInherited
      name hnot
  · rw [hstS]
  · rw [hstS]
  · rw [hstS]

/-- Witness for C6 at a concrete input. -/
theorem C6_witness :
    Synced { emptyModel with
      optionsGetterMethods := [("g", 1)]
      customGetters := [("g", 1)]
      hasCustomGetters := 1 } ∧
    dictGet (loadGetters { emptyModel with
        optionsGetterMethods := [("g", 1)]
        customGetters := [("g", 1)]
        hasCustomGetters := 1 }
      [("x", 7)] true).1.customGetters "g" =
      dictGet ({ emptyModel with
        optionsGetterMethods := [("g", 1)]
        customGetters := [("g", 1)]
        hasCustomGetters := 1 } : ModelState).customGetters "g" := by
  refine ⟨by decide, ?_⟩
  exact (C6_merge_additive
    { emptyModel with
      optionsGetterMethods := [("g", 1)]
      customGetters := [("g", 1)]
      hasCustomGetters := 1 }
    "g" [("x", 7)] [] [] [] true (by decide)).2.1 (by decide)
